import Mathlib

/-!
Verification development for the E-conomic synchronization bridge.

The repository synchronizes invoices and accounting data from a remote REST
API into a relational store, across several tenant "agreements".  This file
gives a shallow embedding of the persistence and orchestration core:

* `src/modules/invoices/invoice.model.js` (multi-agreement revision):
  `findByInvoiceAndAgreementNumber`, `shouldUpdateStatus`, `smartUpsert`,
  `create`, `update`, `saveInvoiceLines`;
* `src/api/client.js`: `getPaginated`;
* `src/modules/invoices/invoice.service.js`: `syncAllInvoices`,
  `cleanupDuplicateInvoices`;
* `src/modules/accounting-years/accounting-year.model.js`: `upsert`;
* `src/modules/accounting-years/accounting-entry.model.js`: `batchUpsert`;
* `src/modules/accounting-years/accounting-total.model.js`: `findByKeys`,
  `batchUpsert`; and the service transformer `transformAccountingTotalData`.

The database is modelled as explicit row lists threaded through each
operation; fallible operations return `Except`.  JavaScript `||` defaulting
and SQL `NULL` semantics (an SQL `=` comparison against a parameter never
matches a stored `NULL`) are modelled explicitly.
-/

namespace Econ

/-! ### JavaScript value helpers

Column values that may be SQL `NULL` (JS `null`/`undefined`) are modelled
as `Option Int`.  JS truthiness on numbers makes both `null` and `0` falsy,
which matters for the `x || y` defaulting idiom used throughout the models.
-/

/-- JS truthiness of an optional integer value: `null`/`undefined` and `0`
are falsy, every other number is truthy. -/
def truthyInt : Option Int → Bool
  | none => false
  | some n => n != 0

/-- JS `a || b` over optional integer values. -/
def jsOr (a b : Option Int) : Option Int :=
  if truthyInt a then a else b

/-- JS `a || null` over an optional integer value (used when binding SQL
parameters such as `invoiceData.exchange_rate || null`). -/
def jsOrNull (a : Option Int) : Option Int :=
  if truthyInt a then a else none

/-- JS `a || d` producing a definite integer (used for defaults such as
`line.quantity || 1`). -/
def jsOrD (a : Option Int) (d : Int) : Int :=
  match a with
  | none => d
  | some n => if n = 0 then d else n

/-- JS `s || null` over an optional string (the empty string is falsy). -/
def jsOrNullStr (a : Option String) : Option String :=
  match a with
  | none => none
  | some s => if s = "" then none else some s

/-! ### Invoice payment status

`InvoiceModel.shouldUpdateStatus` hard-codes the priority table
`overdue: 3, paid: 2, partial: 1, pending: 0`.  These four are exactly the
statuses the invoice sync produces, so the status column is modelled as a
four-valued enumeration (the JS `|| 0` fallback for unknown strings is
unreachable from the sync paths). -/

/-- The four invoice payment statuses.  `partialPaid` renders the string
`'partial'` of the source. -/
inductive Status where
  | pending
  | partialPaid
  | paid
  | overdue
deriving DecidableEq, Repr

/-- The `statusPriority` table of `InvoiceModel.shouldUpdateStatus`. -/
def statusPriority : Status → Nat
  | .overdue => 3
  | .paid => 2
  | .partialPaid => 1
  | .pending => 0

/-- `InvoiceModel.shouldUpdateStatus(currentStatus, newStatus)`:
`(statusPriority[newStatus] || 0) >= (statusPriority[currentStatus] || 0)`. -/
def shouldUpdateStatus (currentStatus newStatus : Status) : Bool :=
  statusPriority currentStatus ≤ statusPriority newStatus

/-! ### Invoice rows and the smart upsert -/

/-- A stored row of the `invoices` table (the columns the verified claims
inspect; monetary and free-text columns are carried unchanged by the
operations under study and are omitted). -/
structure InvoiceRow where
  id : Nat
  invoice_number : Option Int
  draft_invoice_number : Option Int
  customer_number : Option Int
  agreement_number : Option Int
  payment_status : Status
  updated_at : Nat
deriving DecidableEq, Repr

/-- A transformed invoice as produced by
`InvoiceService.transformInvoiceData`.  For `invoice_number` and
`draft_invoice_number`, `none` means the transformer did not set the field
(it only sets them when truthy), so a spread `{...existing, ...invoiceData}`
keeps the stored value; `customer_number` and `agreement_number` keys are
always present in the transformed object (possibly holding `null`). -/
structure IncomingInvoice where
  invoice_number : Option Int
  draft_invoice_number : Option Int
  customer_number : Option Int
  agreement_number : Option Int
  payment_status : Status
deriving DecidableEq, Repr

/-- The `invoices` table plus the `AUTO_INCREMENT` counter feeding
`result.insertId`. -/
structure InvoicesDb where
  rows : List InvoiceRow
  nextId : Nat
deriving DecidableEq, Repr

/-- `InvoiceModel.findByInvoiceAndAgreementNumber`:
`SELECT * FROM invoices WHERE invoice_number = ? AND agreement_number = ?`,
returning the first match or `null`.  A stored SQL `NULL` in either column
never matches the parameter. -/
def findByInvoiceAndAgreementNumber (invoiceNumber agreementNumber : Int)
    (db : InvoicesDb) : Option InvoiceRow :=
  db.rows.find? fun r =>
    r.invoice_number == some invoiceNumber &&
    r.agreement_number == some agreementNumber

/-- The row written by `InvoiceModel.create`: each nullable column is bound
as `invoiceData.field || null`, `customer_number` is bound raw, and the new
`id` is the auto-generated one. -/
def createdRow (d : IncomingInvoice) (now : Nat) (newId : Nat) : InvoiceRow :=
  { id := newId
    invoice_number := jsOrNull d.invoice_number
    draft_invoice_number := jsOrNull d.draft_invoice_number
    customer_number := d.customer_number
    agreement_number := jsOrNull d.agreement_number
    payment_status := d.payment_status
    updated_at := now }

/-- `InvoiceModel.create`: INSERT the row and advance the id counter. -/
def create (d : IncomingInvoice) (now : Nat) (db : InvoicesDb) : InvoicesDb :=
  { rows := db.rows ++ [createdRow d now db.nextId], nextId := db.nextId + 1 }

/-- The row produced by the `smartUpsert` update branch: the spread
`{...existingInvoice, ...invoiceData, payment_status: newStatus, id: existingInvoice.id}`
followed by the column writes of `InvoiceModel.update` (each nullable
column again bound `|| null`, `customer_number` raw, and
`updated_at = CURRENT_TIMESTAMP`). -/
def mergedRow (ex : InvoiceRow) (d : IncomingInvoice) (newStatus : Status)
    (now : Nat) : InvoiceRow :=
  { id := ex.id
    invoice_number :=
      jsOrNull (if d.invoice_number.isSome then d.invoice_number
                else ex.invoice_number)
    draft_invoice_number :=
      jsOrNull (if d.draft_invoice_number.isSome then d.draft_invoice_number
                else ex.draft_invoice_number)
    customer_number := d.customer_number
    agreement_number := jsOrNull d.agreement_number
    payment_status := newStatus
    updated_at := now }

/-- `InvoiceModel.smartUpsert` (multi-agreement revision).  The lookup key is
`invoiceData.invoice_number || invoiceData.draft_invoice_number` together
with `invoiceData.agreement_number`; a falsy key raises before any database
access.  When a row matches, the status precedence check decides the stored
status and `update` rewrites the row in place (`WHERE id = ?`); otherwise
`create` inserts.  (The `getD 0` unwraps are guarded by the truthiness
checks, which guarantee the options are `some`.) -/
def smartUpsert (d : IncomingInvoice) (now : Nat) (db : InvoicesDb) :
    Except String InvoicesDb :=
  let invoiceNumber := jsOr d.invoice_number d.draft_invoice_number
  let agreementNumber := d.agreement_number
  if truthyInt invoiceNumber = false then
    .error "Invoice number or draft invoice number is required for upsert"
  else if truthyInt agreementNumber = false then
    .error "Agreement number is required for upsert"
  else
    match findByInvoiceAndAgreementNumber (invoiceNumber.getD 0)
        (agreementNumber.getD 0) db with
    | some existing =>
        let newStatus :=
          if shouldUpdateStatus existing.payment_status d.payment_status
          then d.payment_status else existing.payment_status
        let updated := mergedRow existing d newStatus now
        .ok { db with
              rows := db.rows.map fun r =>
                if r.id == existing.id then updated else r }
    | none => .ok (create d now db)

/-- The spec's `max_priority(S1, S2)`: the higher-priority of the two
statuses under `overdue(3) > paid(2) > partial(1) > pending(0)`. -/
def maxPriorityStatus (s1 s2 : Status) : Status :=
  if statusPriority s2 ≤ statusPriority s1 then s1 else s2

/-! ### Cursor pagination (`ApiClient.getPaginated`)

The mock server is the list of response envelopes it will return, in request
order; each envelope carries a `collection` and an optional
`pagination.nextPage` cursor.  The client loop appends every response's
collection and keeps requesting while a cursor is present, so the Lean
recursion consumes one envelope per request and additionally counts the
requests made. -/

/-- One response envelope: `{collection: [...], pagination: {nextPage}}`. -/
structure Page (ρ : Type) where
  collection : List ρ
  nextPage : Option String
deriving Repr

/-- `ApiClient.getPaginated`, run against the listed responses: returns the
accumulated records and the number of requests issued.  The loop stops at
the first response whose `pagination?.nextPage` is absent. -/
def getPaginated {ρ : Type} : List (Page ρ) → List ρ × Nat
  | [] => ([], 0)
  | p :: rest =>
    match p.nextPage with
    | none => (p.collection, 1)
    | some _ =>
        let r := getPaginated rest
        (p.collection ++ r.1, r.2 + 1)

/-- The mock-server shape of the pagination claim: the server yields at
least one page, every page except the last carries a `nextPage` cursor, and
the last does not. -/
def PagedServer {ρ : Type} : List (Page ρ) → Prop
  | [] => False
  | [p] => p.nextPage = none
  | p :: q :: rest => p.nextPage.isSome ∧ PagedServer (q :: rest)

/-! ### Invoice lines (`InvoiceModel.saveInvoiceLines`) -/

/-- A stored row of the `invoice_lines` table.  The surrogate string id
`` `${invoiceId}-line-${line.line_number}` `` is determined by
`(invoice_id, line_number)` and therefore not repeated as a field. -/
structure InvoiceLineRow where
  invoice_id : Nat
  line_number : Int
  product_number : Option Int
  description : String
  quantity : Int
  unit_price : Int
  discount_percentage : Int
  unit : Option String
  total_net_amount : Int
deriving DecidableEq, Repr

/-- A transformed line as produced by
`InvoiceService.transformInvoiceLines`. -/
structure IncomingLine where
  line_number : Int
  product_number : Option Int
  description : String
  quantity : Option Int
  unit_price : Option Int
  discount_percentage : Option Int
  unit : Option String
  total_net_amount : Option Int
deriving DecidableEq, Repr

/-- The column bindings of the `INSERT INTO invoice_lines` statement:
`product_number || null`, `quantity || 1`, `unit_price || 0`,
`discount_percentage || 0`, `unit || null`, `total_net_amount || 0`. -/
def lineToRow (invoiceId : Nat) (l : IncomingLine) : InvoiceLineRow :=
  { invoice_id := invoiceId
    line_number := l.line_number
    product_number := jsOrNull l.product_number
    description := l.description
    quantity := jsOrD l.quantity 1
    unit_price := jsOrD l.unit_price 0
    discount_percentage := jsOrD l.discount_percentage 0
    unit := jsOrNullStr l.unit
    total_net_amount := jsOrD l.total_net_amount 0 }

/-- `InvoiceModel.saveInvoiceLines(invoiceId, lines)`: on an empty (or
absent) `lines` array it returns `[]` at once, touching nothing; otherwise,
inside one transaction, it deletes every stored line of the invoice
(`DELETE FROM invoice_lines WHERE invoice_id = ?`) and inserts the fresh
lines in order. -/
def saveInvoiceLines (invoiceId : Nat) (lines : List IncomingLine)
    (tbl : List InvoiceLineRow) : List InvoiceLineRow :=
  if lines.isEmpty then tbl
  else
    tbl.filter (fun r => r.invoice_id != invoiceId) ++
      lines.map (lineToRow invoiceId)

/-! ### Cross-agreement orchestration (`InvoiceService.syncAllInvoices`) -/

/-- A stored agreement record, as returned by
`AgreementModel.getAll(true)` (active agreements only). -/
structure AgreementRec where
  id : Nat
  name : String
  agreement_number : Option Int
deriving DecidableEq, Repr

/-- The value returned by `InvoiceService.syncAgreementInvoices` on
success: the agreement header plus the processed-record count read by the
orchestrator (`totalCount += result.totalCount`). -/
structure AgreementSyncResult where
  agreement : AgreementRec
  totalCount : Nat
deriving DecidableEq, Repr

/-- One element of the orchestrator's `agreementResults` array: either a
per-agreement sync result, or the error entry
`{agreement: {...}, status: 'error', error: message}` pushed when the
per-agreement sync throws. -/
inductive AgreementEntry where
  | ok (result : AgreementSyncResult)
  | err (agreement : AgreementRec) (message : String)
deriving DecidableEq, Repr

/-- The summary returned by `syncAllInvoices`. -/
structure SyncAllResult where
  status : String
  message : Option String
  results : List AgreementEntry
  totalCount : Nat
deriving DecidableEq, Repr

/-- The loop body of `syncAllInvoices`: try the per-agreement sync, push
its result and accumulate its count on success, push an error entry and
keep iterating on failure. -/
def syncAllStep (syncAgreement : AgreementRec → Except String AgreementSyncResult)
    (acc : List AgreementEntry × Nat) (a : AgreementRec) :
    List AgreementEntry × Nat :=
  match syncAgreement a with
  | .ok r => (acc.1 ++ [.ok r], acc.2 + r.totalCount)
  | .error e => (acc.1 ++ [.err a e], acc.2)

/-- `InvoiceService.syncAllInvoices`, parameterized by the list of active
agreements and by the effect of `syncAgreementInvoices` on each (that call
performs network and database I/O and is abstracted as a function that
either returns a result or throws).  Zero active agreements short-circuit
to the `warning` summary before any per-agreement work. -/
def syncAllInvoices (agreements : List AgreementRec)
    (syncAgreement : AgreementRec → Except String AgreementSyncResult) :
    SyncAllResult :=
  if agreements.isEmpty then
    { status := "warning"
      message := some "No active agreements found"
      results := []
      totalCount := 0 }
  else
    let acc := agreements.foldl (syncAllStep syncAgreement) ([], 0)
    { status := "success"
      message := none
      results := acc.1
      totalCount := acc.2 }

/-! ### Accounting years (`AccountingYearModel.upsert`) -/

/-- A stored row of `accounting_years` (dates modelled as opaque
integers; the timestamp columns are not read by any claim). -/
structure YearRow where
  year : Int
  agreement_number : Int
  start_date : Int
  end_date : Int
  closed : Bool
  self_url : String
deriving DecidableEq, Repr

/-- A transformed accounting year (`transformAccountingYearData` always
fills every field; `closed || false` is the identity on booleans). -/
structure YearData where
  year : Int
  agreement_number : Int
  start_date : Int
  end_date : Int
  closed : Bool
  self_url : String
deriving DecidableEq, Repr

/-- `AccountingYearModel.findByYearAndAgreement`. -/
def findByYearAndAgreement (year agreementNumber : Int)
    (db : List YearRow) : Option YearRow :=
  db.find? fun r => r.year == year && r.agreement_number == agreementNumber

/-- Does a stored year row match the natural key of `d`? -/
def yearKey (d : YearData) (r : YearRow) : Bool :=
  r.year == d.year && r.agreement_number == d.agreement_number

/-- `AccountingYearModel.upsert`: look the natural key up first; on a hit,
`UPDATE ... WHERE year = ? AND agreement_number = ?` rewrites the non-key
columns of every matching row; otherwise `INSERT`. -/
def yearUpsert (d : YearData) (db : List YearRow) : List YearRow :=
  match findByYearAndAgreement d.year d.agreement_number db with
  | some _ =>
      db.map fun r =>
        if yearKey d r then
          { r with start_date := d.start_date, end_date := d.end_date,
                   closed := d.closed, self_url := d.self_url }
        else r
  | none =>
      db ++ [{ year := d.year, agreement_number := d.agreement_number,
               start_date := d.start_date, end_date := d.end_date,
               closed := d.closed, self_url := d.self_url }]

/-! ### Accounting entries (`AccountingEntryModel.batchUpsert`) -/

/-- A row of `accounting_entries`; the transformed entry shape coincides
with the stored shape, since `batchUpsert` writes every column. -/
structure AccountingEntry where
  entry_number : Int
  year : Int
  period_number : Int
  agreement_number : Int
  account_number : Int
  amount : Int
  amount_in_base_currency : Int
  currency : String
  entry_date : Int
  entry_text : String
  entry_type : Option String
  voucher_number : Option Int
  self_url : String
deriving DecidableEq, Repr

/-- Does a stored entry row match the natural key
`(entry_number, year, agreement_number)` of `e`? -/
def entryKey (e r : AccountingEntry) : Bool :=
  r.entry_number == e.entry_number && r.year == e.year &&
    r.agreement_number == e.agreement_number

/-- `AccountingEntryModel.findByEntryNumberYearAndAgreement`. -/
def findByEntryNumberYearAndAgreement (entryNumber year agreementNumber : Int)
    (db : List AccountingEntry) : Option AccountingEntry :=
  db.find? fun r =>
    r.entry_number == entryNumber && r.year == year &&
      r.agreement_number == agreementNumber

/-- State threaded through `batchUpsert`: the table plus the running
`inserted` and `updated` counters. -/
structure EntryBatchState where
  db : List AccountingEntry
  inserted : Nat
  updated : Nat
deriving Repr

/-- The per-entry body of `AccountingEntryModel.batchUpsert`: find by
natural key; on a hit the `UPDATE ... WHERE` key rewrites every non-key
column of the matching rows (leaving the row equal to the incoming entry),
otherwise `INSERT`. -/
def entryUpsertStep (st : EntryBatchState) (e : AccountingEntry) :
    EntryBatchState :=
  match findByEntryNumberYearAndAgreement e.entry_number e.year
      e.agreement_number st.db with
  | some _ =>
      { db := st.db.map fun r => if entryKey e r then e else r
        inserted := st.inserted
        updated := st.updated + 1 }
  | none =>
      { db := st.db ++ [e], inserted := st.inserted + 1,
        updated := st.updated }

/-- The chunked outer loop of `batchUpsert`: slices of `batchSize = 100`
entries are processed inside one transaction each, in order. -/
def entryBatchGo (st : EntryBatchState) (entries : List AccountingEntry) :
    EntryBatchState :=
  match entries with
  | [] => st
  | e :: rest =>
      entryBatchGo (((e :: rest).take 100).foldl entryUpsertStep st)
        ((e :: rest).drop 100)
termination_by entries.length
decreasing_by
  simp only [List.length_drop, List.length_cons]
  omega

/-- `AccountingEntryModel.batchUpsert`: empty input returns
`{inserted: 0, updated: 0}` without touching the table. -/
def entryBatchUpsert (entries : List AccountingEntry)
    (db : List AccountingEntry) : EntryBatchState :=
  if entries.isEmpty then ⟨db, 0, 0⟩
  else entryBatchGo ⟨db, 0, 0⟩ entries

/-! ### Accounting totals (`AccountingTotalModel`)

`period_number = 0` is the sentinel for "year-level total".  The stored
column is modelled as `Option Int` so that the no-`NULL` invariant is a
provable property of the writes rather than a typing artifact. -/

/-- A stored row of `accounting_totals`. -/
structure TotalRow where
  account_number : Int
  year : Int
  period_number : Option Int
  agreement_number : Int
  total_in_base_currency : Int
  from_date : Int
  to_date : Int
deriving DecidableEq, Repr

/-- A transformed accounting total handed to
`AccountingTotalModel.batchUpsert` (`none` models a JS `null`
`period_number`). -/
structure TotalData where
  account_number : Int
  year : Int
  period_number : Option Int
  agreement_number : Int
  total_in_base_currency : Int
  from_date : Int
  to_date : Int
deriving DecidableEq, Repr

/-- The normalization `periodNumber === null ? 0 : periodNumber` performed
by `findByKeys` and by `batchUpsert` before every lookup and write. -/
def normalizePeriod : Option Int → Int
  | none => 0
  | some v => v

/-- `AccountingTotalModel.findByKeys`: normalize the period, then
`SELECT ... WHERE account_number = ? AND year = ? AND period_number = ?
AND agreement_number = ?` (a stored `NULL` period never matches). -/
def findByKeys (accountNumber year : Int) (periodNumber : Option Int)
    (agreementNumber : Int) (db : List TotalRow) : Option TotalRow :=
  let periodValue := normalizePeriod periodNumber
  db.find? fun r =>
    r.account_number == accountNumber && r.year == year &&
      r.period_number == some periodValue &&
      r.agreement_number == agreementNumber

/-- Does a stored total row match the normalized key of `t`? -/
def totalKey (t : TotalData) (r : TotalRow) : Bool :=
  r.account_number == t.account_number && r.year == t.year &&
    r.period_number == some (normalizePeriod t.period_number) &&
    r.agreement_number == t.agreement_number

/-- State threaded through `AccountingTotalModel.batchUpsert`. -/
structure TotalBatchState where
  db : List TotalRow
  inserted : Nat
  updated : Nat
deriving Repr

/-- The per-total body of `AccountingTotalModel.batchUpsert`: normalize the
period, find by the normalized key; on a hit the
`UPDATE ... WHERE` key rewrites the amount and date columns, otherwise the
`INSERT` writes the normalized `periodValue` into `period_number`. -/
def totalUpsertStep (st : TotalBatchState) (t : TotalData) :
    TotalBatchState :=
  let periodValue := normalizePeriod t.period_number
  match findByKeys t.account_number t.year (some periodValue)
      t.agreement_number st.db with
  | some _ =>
      { db := st.db.map fun r =>
          if totalKey t r then
            { r with total_in_base_currency := t.total_in_base_currency,
                     from_date := t.from_date, to_date := t.to_date }
          else r
        inserted := st.inserted
        updated := st.updated + 1 }
  | none =>
      { db := st.db ++
          [{ account_number := t.account_number, year := t.year,
             period_number := some periodValue,
             agreement_number := t.agreement_number,
             total_in_base_currency := t.total_in_base_currency,
             from_date := t.from_date, to_date := t.to_date }]
        inserted := st.inserted + 1
        updated := st.updated }

/-- The chunked outer loop of `AccountingTotalModel.batchUpsert`
(`batchSize = 100`, one transaction per chunk). -/
def totalBatchGo (st : TotalBatchState) (totals : List TotalData) :
    TotalBatchState :=
  match totals with
  | [] => st
  | t :: rest =>
      totalBatchGo (((t :: rest).take 100).foldl totalUpsertStep st)
        ((t :: rest).drop 100)
termination_by totals.length
decreasing_by
  simp only [List.length_drop, List.length_cons]
  omega

/-- `AccountingTotalModel.batchUpsert`. -/
def totalBatchUpsert (totals : List TotalData) (db : List TotalRow) :
    TotalBatchState :=
  if totals.isEmpty then ⟨db, 0, 0⟩
  else totalBatchGo ⟨db, 0, 0⟩ totals

/-- The remote total shape read by the transformer (only the fields it
projects). -/
structure ApiTotal where
  accountNumber : Int
  totalInBaseCurrency : Int
  fromDate : Int
  toDate : Int
deriving DecidableEq, Repr

/-- `AccountingYearService.transformAccountingTotalData`: the period is
written as `periodNumber || 0` ("Use 0 for year totals"). -/
def transformAccountingTotalData (total : ApiTotal) (year : Int)
    (periodNumber : Option Int) (agreementNumber : Int) : TotalData :=
  { account_number := total.accountNumber
    year := year
    period_number := some (jsOrD periodNumber 0)
    agreement_number := agreementNumber
    total_in_base_currency := total.totalInBaseCurrency
    from_date := total.fromDate
    to_date := total.toDate }

/-! ### Duplicate-invoice cleanup (`InvoiceService.cleanupDuplicateInvoices`)

For each active agreement the service enumerates the distinct non-`NULL`
invoice numbers of that agreement, re-reads each group ordered by
`updated_at DESC`, keeps the first row and deletes the rest by `id`. -/

/-- Does a stored invoice row belong to the duplicate group
`(invoice_number = n, agreement_number = g)`?  (`NULL` columns match
neither.) -/
def invKey (g n : Int) (r : InvoiceRow) : Bool :=
  r.invoice_number == some n && r.agreement_number == some g

/-- The `ORDER BY updated_at DESC` ordering used when re-reading one
duplicate group. -/
def moreRecent (x y : InvoiceRow) : Prop :=
  y.updated_at ≤ x.updated_at

instance : DecidableRel moreRecent := fun x y =>
  inferInstanceAs (Decidable (y.updated_at ≤ x.updated_at))

instance : IsTotal InvoiceRow moreRecent :=
  ⟨fun x y => le_total y.updated_at x.updated_at⟩

instance : IsTrans InvoiceRow moreRecent :=
  ⟨fun _ _ _ hxy hyz => le_trans hyz hxy⟩

/-- The body of the inner loop of `cleanupDuplicateInvoices`, for one
invoice number `n` of one agreement `g`: re-read the group, skip it when it
has at most one row, otherwise keep the most-recently-updated row
(`invoices[0]` of the `DESC` ordering) and delete the remaining rows by
their `id`, counting each deletion. -/
def cleanupNumber (g n : Int) (st : List InvoiceRow × Nat) :
    List InvoiceRow × Nat :=
  let group := st.1.filter (invKey g n)
  if group.length ≤ 1 then st
  else
    let sorted := group.insertionSort moreRecent
    let dupIds := sorted.tail.map InvoiceRow.id
    (st.1.filter (fun r => !(dupIds.contains r.id)),
      st.2 + sorted.tail.length)

/-- The per-agreement pass of `cleanupDuplicateInvoices`: an agreement
whose stored `agreement_number` is `NULL` selects no rows (`WHERE
agreement_number = NULL` is always false); otherwise the distinct non-null
invoice numbers of the agreement are enumerated from the current table
state and each group is processed in turn. -/
def cleanupAgreement (st : List InvoiceRow × Nat) (a : AgreementRec) :
    List InvoiceRow × Nat :=
  match a.agreement_number with
  | none => st
  | some g =>
      let numbers :=
        ((st.1.filter (fun r => r.agreement_number == some g)).filterMap
          InvoiceRow.invoice_number).dedup
      numbers.foldl (fun acc n => cleanupNumber g n acc) st

/-- `InvoiceService.cleanupDuplicateInvoices`, parameterized by the active
agreements: returns the table after deletion together with the
`cleanedCount` it reports. -/
def cleanupDuplicateInvoices (agreements : List AgreementRec)
    (db : List InvoiceRow) : List InvoiceRow × Nat :=
  agreements.foldl cleanupAgreement (db, 0)

/-! ## Helper lemmas -/

/-- The update branch's status choice realizes the spec's `max_priority`:
taking the incoming status exactly when its priority is ≥ the stored one
yields the higher-priority of the two, and never decreases priority. -/
theorem status_choice_eq_max (s1 s2 : Status) :
    (if shouldUpdateStatus s1 s2 then s2 else s1) = maxPriorityStatus s1 s2 ∧
    statusPriority s1 ≤ statusPriority (maxPriorityStatus s1 s2) := by
  cases s1 <;> cases s2 <;> decide

/-- Unfolding `smartUpsert` in the update branch. -/
theorem smartUpsert_update_branch (d : IncomingInvoice) (now : Nat)
    (db : InvoicesDb) (ex : InvoiceRow)
    (hinv : truthyInt (jsOr d.invoice_number d.draft_invoice_number) = true)
    (hagr : truthyInt d.agreement_number = true)
    (hfind : findByInvoiceAndAgreementNumber
        ((jsOr d.invoice_number d.draft_invoice_number).getD 0)
        (d.agreement_number.getD 0) db = some ex) :
    smartUpsert d now db = .ok
      { db with rows := db.rows.map (fun r =>
          if r.id == ex.id then
            mergedRow ex d
              (if shouldUpdateStatus ex.payment_status d.payment_status
                then d.payment_status else ex.payment_status) now
          else r) } := by
  simp only [smartUpsert, hinv, hagr, hfind, Bool.true_eq_false, if_false]

/-! ## Concrete rows and inputs used by the witnesses -/

/-- A stored invoice already flagged overdue. -/
def exStoredOverdue : InvoiceRow :=
  ⟨1, some 10, none, some 5, some 7, .overdue, 3⟩

/-- An incoming transformed row for the same invoice/agreement key, status
pending, with a different customer number. -/
def exIncomingPending : IncomingInvoice :=
  ⟨some 10, none, some 6, some 7, .pending⟩

/-- A one-row invoices table. -/
def exDb1 : InvoicesDb := ⟨[exStoredOverdue], 2⟩

/-- A transformed row with no customer number at all. -/
def exNoCustomer : IncomingInvoice := ⟨some 1, none, none, some 7, .pending⟩

/-- A transformed row with no agreement number. -/
def exNoAgreement : IncomingInvoice := ⟨some 1, none, some 5, none, .pending⟩

/-! ## C1 -/

/-- C1: Invoice payment-status monotonicity.  Whenever the upsert finds an
existing row for the incoming row's key, the upsert succeeds, inserts
nothing, and every stored row with the matched id ends with payment status
`max_priority(S1, S2)` under `overdue(3) > paid(2) > partial(1) >
pending(0)`; in particular the stored priority never decreases. -/
theorem smartUpsert_status_monotonic (db : InvoicesDb) (d : IncomingInvoice)
    (now : Nat) (ex : InvoiceRow)
    (hinv : truthyInt (jsOr d.invoice_number d.draft_invoice_number) = true)
    (hagr : truthyInt d.agreement_number = true)
    (hfind : findByInvoiceAndAgreementNumber
        ((jsOr d.invoice_number d.draft_invoice_number).getD 0)
        (d.agreement_number.getD 0) db = some ex) :
    ∃ db', smartUpsert d now db = .ok db' ∧
      db'.rows.length = db.rows.length ∧
      ∀ r ∈ db'.rows, r.id = ex.id →
        r.payment_status =
          maxPriorityStatus ex.payment_status d.payment_status ∧
        statusPriority ex.payment_status ≤ statusPriority r.payment_status := by
  refine ⟨_, smartUpsert_update_branch d now db ex hinv hagr hfind, by simp, ?_⟩
  intro r hr hid
  simp only [List.mem_map] at hr
  obtain ⟨a, _, rfl⟩ := hr
  have hs := status_choice_eq_max ex.payment_status d.payment_status
  by_cases h : (a.id == ex.id) = true
  · simp only [h, if_true]
    exact ⟨by simpa [mergedRow] using hs.1,
      by simpa [mergedRow, hs.1] using hs.2⟩
  · simp only [h, if_false] at hid ⊢
    exact absurd hid (by simpa using h)

/-- C1 witness: stored `overdue`, incoming `pending` for the same
`(invoice_number, agreement_number)` key stays `overdue`. -/
theorem smartUpsert_status_monotonic_witness :
    (truthyInt (jsOr exIncomingPending.invoice_number
        exIncomingPending.draft_invoice_number) = true) ∧
    (truthyInt exIncomingPending.agreement_number = true) ∧
    (findByInvoiceAndAgreementNumber
        ((jsOr exIncomingPending.invoice_number
            exIncomingPending.draft_invoice_number).getD 0)
        (exIncomingPending.agreement_number.getD 0) exDb1 =
      some exStoredOverdue) ∧
    (∃ db', smartUpsert exIncomingPending 9 exDb1 = .ok db' ∧
      db'.rows.length = exDb1.rows.length ∧
      ∀ r ∈ db'.rows, r.id = exStoredOverdue.id →
        r.payment_status =
          maxPriorityStatus exStoredOverdue.payment_status
            exIncomingPending.payment_status ∧
        statusPriority exStoredOverdue.payment_status ≤
          statusPriority r.payment_status) :=
  ⟨by decide, by decide, by decide,
    smartUpsert_status_monotonic exDb1 exIncomingPending 9 exStoredOverdue
      (by decide) (by decide) (by decide)⟩

/-! ## C10 -/

/-- C10: the `smartUpsert` existence check matches on `invoice_number` and
`agreement_number` only: changing every stored `customer_number` does not
change whether the lookup hits, and an incoming row whose
`customer_number` differs from the stored one still takes the update
branch — no second row is inserted and the stored `customer_number` is
overwritten with the incoming one. -/
theorem smartUpsert_key_ignores_customer (db : InvoicesDb)
    (d : IncomingInvoice) (now : Nat) (ex : InvoiceRow)
    (hinv : truthyInt (jsOr d.invoice_number d.draft_invoice_number) = true)
    (hagr : truthyInt d.agreement_number = true)
    (hfind : findByInvoiceAndAgreementNumber
        ((jsOr d.invoice_number d.draft_invoice_number).getD 0)
        (d.agreement_number.getD 0) db = some ex)
    (hdiff : ex.customer_number ≠ d.customer_number) :
    (∀ (i a : Int) (c : Option Int),
      (findByInvoiceAndAgreementNumber i a
          ⟨db.rows.map (fun r => { r with customer_number := c }),
            db.nextId⟩).isSome =
        (findByInvoiceAndAgreementNumber i a db).isSome) ∧
    ∃ db', smartUpsert d now db = .ok db' ∧
      db'.rows.length = db.rows.length ∧
      ∀ r ∈ db'.rows, r.id = ex.id →
        r.customer_number = d.customer_number := by
  constructor
  · intro i a c
    simp only [findByInvoiceAndAgreementNumber]
    induction db.rows with
    | nil => rfl
    | cons x l ih =>
        simp only [List.map_cons, List.find?_cons]
        cases hx : (x.invoice_number == some i &&
            x.agreement_number == some a) <;>
          simp only [hx, cond_true, cond_false, Option.isSome_some, ih]
  · refine ⟨_, smartUpsert_update_branch d now db ex hinv hagr hfind,
      by simp, ?_⟩
    intro r hr hid
    simp only [List.mem_map] at hr
    obtain ⟨a, _, rfl⟩ := hr
    by_cases h : (a.id == ex.id) = true
    · simp only [h, if_true]
      rfl
    · simp only [h, if_false] at hid ⊢
      exact absurd hid (by simpa using h)

/-- C10 witness: same key, customer 5 stored vs 6 incoming: the update
branch runs and the stored customer number becomes 6. -/
theorem smartUpsert_key_ignores_customer_witness :
    (truthyInt (jsOr exIncomingPending.invoice_number
        exIncomingPending.draft_invoice_number) = true) ∧
    (exStoredOverdue.customer_number ≠ exIncomingPending.customer_number) ∧
    ((∀ (i a : Int) (c : Option Int),
      (findByInvoiceAndAgreementNumber i a
          ⟨exDb1.rows.map (fun r => { r with customer_number := c }),
            exDb1.nextId⟩).isSome =
        (findByInvoiceAndAgreementNumber i a exDb1).isSome) ∧
    ∃ db', smartUpsert exIncomingPending 9 exDb1 = .ok db' ∧
      db'.rows.length = exDb1.rows.length ∧
      ∀ r ∈ db'.rows, r.id = exStoredOverdue.id →
        r.customer_number = exIncomingPending.customer_number) :=
  ⟨by decide, by decide,
    smartUpsert_key_ignores_customer exDb1 exIncomingPending 9 exStoredOverdue
      (by decide) (by decide) (by decide) (by decide)⟩

/-! ## C8 (corrected) -/

/-- C8 counterexample: a transformed row whose `customer_number` is absent
does **not** make `smartUpsert` raise a validation error — the upsert
succeeds and inserts a row with a `NULL` customer number, so the claim's
"customer number" case is false as stated. -/
theorem smartUpsert_missing_customer_counterexample :
    smartUpsert exNoCustomer 0 ⟨[], 1⟩ =
      .ok ⟨[⟨1, some 1, none, none, some 7, .pending, 0⟩], 2⟩ := by rfl

/-- C8 (amended): when the incoming row has a falsy
`invoice_number || draft_invoice_number` or a falsy `agreement_number`,
`smartUpsert` raises a validation error; since the error is returned before
any lookup or write, the stored state is untouched (the returned `Except`
carries no new state).  Customer number is not validated. -/
theorem smartUpsert_validation_fail_fast (db : InvoicesDb)
    (d : IncomingInvoice) (now : Nat)
    (h : truthyInt (jsOr d.invoice_number d.draft_invoice_number) = false ∨
         truthyInt d.agreement_number = false) :
    ∃ msg, smartUpsert d now db = .error msg := by
  rcases h with h | h
  · exact ⟨"Invoice number or draft invoice number is required for upsert",
      by simp [smartUpsert, h]⟩
  · cases hinv : truthyInt (jsOr d.invoice_number d.draft_invoice_number)
    · exact ⟨"Invoice number or draft invoice number is required for upsert",
        by simp [smartUpsert, hinv]⟩
    · exact ⟨"Agreement number is required for upsert",
        by simp [smartUpsert, hinv, h]⟩

/-- C8 witness: a row with no agreement number is rejected. -/
theorem smartUpsert_validation_fail_fast_witness :
    (truthyInt (jsOr exNoAgreement.invoice_number
        exNoAgreement.draft_invoice_number) = false ∨
      truthyInt exNoAgreement.agreement_number = false) ∧
    ∃ msg, smartUpsert exNoAgreement 3 exDb1 = .error msg :=
  ⟨Or.inr (by decide),
    smartUpsert_validation_fail_fast exDb1 exNoAgreement 3
      (Or.inr (by decide))⟩

/-! ## C7 (corrected) -/

/-- A stale stored line of invoice 1. -/
def exStaleLine : InvoiceLineRow := ⟨1, 1, none, "stale", 1, 0, 0, none, 0⟩

/-- A stored line of a different invoice. -/
def exOtherLine : InvoiceLineRow := ⟨2, 1, none, "other", 1, 0, 0, none, 0⟩

/-- A fresh transformed line for invoice 1. -/
def exFreshLine : IncomingLine := ⟨1, none, "fresh", some 2, some 5, none, none, some 10⟩

/-- C7 counterexample: with an **empty** fresh line set the function
returns immediately without deleting, so the stored line set does not
equal the (empty) fresh set — the claim's "including the empty one" is
false. -/
theorem saveInvoiceLines_empty_counterexample :
    saveInvoiceLines 1 [] [exStaleLine] = [exStaleLine] ∧
    (saveInvoiceLines 1 [] [exStaleLine]).filter
      (fun r => r.invoice_id == 1) ≠ [] := by
  exact ⟨rfl, by decide⟩

/-- C7 (amended): for every **non-empty** fresh line set,
`saveInvoiceLines` deletes all stored lines of the invoice and inserts the
fresh set, so afterwards the stored lines of that invoice are exactly the
fresh lines (in order) and every other invoice's lines are untouched; an
empty fresh set is a no-op that leaves existing lines in place. -/
theorem saveInvoiceLines_replaces (invoiceId : Nat)
    (lines : List IncomingLine) (tbl : List InvoiceLineRow)
    (h : lines ≠ []) :
    (saveInvoiceLines invoiceId lines tbl).filter
        (fun r => r.invoice_id == invoiceId) =
      lines.map (lineToRow invoiceId) ∧
    (saveInvoiceLines invoiceId lines tbl).filter
        (fun r => r.invoice_id != invoiceId) =
      tbl.filter (fun r => r.invoice_id != invoiceId) := by
  have hne : lines.isEmpty = false := by
    cases lines with
    | nil => exact absurd rfl h
    | cons x xs => rfl
  simp only [saveInvoiceLines, hne, Bool.false_eq_true, if_false,
    List.filter_append]
  constructor
  · have h1 : (tbl.filter (fun r => r.invoice_id != invoiceId)).filter
        (fun r => r.invoice_id == invoiceId) = [] := by
      rw [List.filter_filter]
      apply List.filter_eq_nil_iff.mpr
      intro a _
      cases hx : (a.invoice_id == invoiceId) <;> simp [hx, bne]
    have h2 : (lines.map (lineToRow invoiceId)).filter
        (fun r => r.invoice_id == invoiceId) =
          lines.map (lineToRow invoiceId) := by
      apply List.filter_eq_self.mpr
      intro a ha
      obtain ⟨x, _, rfl⟩ := List.mem_map.mp ha
      simp [lineToRow]
    rw [h1, h2, List.nil_append]
  · have h1 : (tbl.filter (fun r => r.invoice_id != invoiceId)).filter
        (fun r => r.invoice_id != invoiceId) =
          tbl.filter (fun r => r.invoice_id != invoiceId) := by
      rw [List.filter_filter]
      apply List.filter_congr
      intro a _
      cases hx : (a.invoice_id != invoiceId) <;> simp [hx]
    have h2 : (lines.map (lineToRow invoiceId)).filter
        (fun r => r.invoice_id != invoiceId) = [] := by
      apply List.filter_eq_nil_iff.mpr
      intro a ha
      obtain ⟨x, _, rfl⟩ := List.mem_map.mp ha
      simp [lineToRow]
    rw [h1, h2, List.append_nil]

/-- C7 witness: a non-empty fresh set fully replaces invoice 1's lines and
leaves invoice 2's line alone. -/
theorem saveInvoiceLines_replaces_witness :
    ([exFreshLine] ≠ ([] : List IncomingLine)) ∧
    ((saveInvoiceLines 1 [exFreshLine] [exStaleLine, exOtherLine]).filter
        (fun r => r.invoice_id == 1) =
      [exFreshLine].map (lineToRow 1) ∧
    (saveInvoiceLines 1 [exFreshLine] [exStaleLine, exOtherLine]).filter
        (fun r => r.invoice_id != 1) =
      [exStaleLine, exOtherLine].filter (fun r => r.invoice_id != 1)) :=
  ⟨by decide, saveInvoiceLines_replaces 1 [exFreshLine]
    [exStaleLine, exOtherLine] (by decide)⟩

/-! ## C3 -/

/-- One unfolding of the pagination loop when the head response carries a
cursor: its collection is accumulated and one more request is issued. -/
theorem getPaginated_cons_some {ρ : Type} (p : Page ρ) (l : List (Page ρ))
    (u : String) (hu : p.nextPage = some u) :
    getPaginated (p :: l) =
      (p.collection ++ (getPaginated l).1, (getPaginated l).2 + 1) := by
  simp only [getPaginated, hu]

/-- C3: running `getPaginated` against a server of `N` pages, each carrying
a `nextPage` cursor except the last, issues exactly `N` requests and
returns the concatenation of the pages' collections in page order. -/
theorem getPaginated_pages {ρ : Type} (pages : List (Page ρ))
    (h : PagedServer pages) :
    getPaginated pages =
      ((pages.map Page.collection).flatten, pages.length) := by
  induction pages with
  | nil => exact absurd h (by simp [PagedServer])
  | cons p rest ih =>
      cases rest with
      | nil =>
          have hp : p.nextPage = none := h
          simp [getPaginated, hp]
      | cons q rest' =>
          obtain ⟨h1, h2⟩ := h
          obtain ⟨u, hu⟩ := Option.isSome_iff_exists.mp h1
          rw [getPaginated_cons_some p _ u hu, ih h2]
          simp

/-- The two-page mock server used by the C3 witness. -/
def exPages : List (Page Nat) := [⟨[1, 2], some "next"⟩, ⟨[3], none⟩]

/-- C3 witness: two pages, three records, two requests. -/
theorem getPaginated_pages_witness :
    PagedServer exPages ∧ getPaginated exPages = ([1, 2, 3], 2) :=
  ⟨⟨rfl, rfl⟩, (getPaginated_pages exPages ⟨rfl, rfl⟩).trans rfl⟩

/-! ## C5 -/

/-- C5: with zero active agreements, `syncAllInvoices` returns the
`warning` summary with an empty results array and `totalCount = 0`,
whatever the per-agreement sync would have done, and does not throw. -/
theorem syncAll_zero_agreements
    (f : AgreementRec → Except String AgreementSyncResult) :
    syncAllInvoices [] f =
      { status := "warning", message := some "No active agreements found",
        results := [], totalCount := 0 } := rfl

/-! ## C4 -/

/-- Closed form of the orchestrator loop: the results array is the
per-agreement outcomes in agreement order, and the total is the sum of the
successful record counts. -/
theorem syncAllStep_foldl
    (f : AgreementRec → Except String AgreementSyncResult) :
    ∀ (l : List AgreementRec) (acc : List AgreementEntry × Nat),
      l.foldl (syncAllStep f) acc =
        (acc.1 ++ l.map (fun a =>
            match f a with
            | .ok r => AgreementEntry.ok r
            | .error e => AgreementEntry.err a e),
         acc.2 + (l.map (fun a =>
            match f a with
            | .ok r => r.totalCount
            | .error _ => 0)).sum) := by
  intro l
  induction l with
  | nil => intro acc; simp
  | cons a l ih =>
      intro acc
      rw [List.foldl_cons, ih]
      cases hf : f a <;>
        simp [syncAllStep, hf, List.append_assoc, Nat.add_assoc]

/-- C4: when some active agreement's per-agreement sync throws, the
orchestrator still processes every agreement: the results array has one
entry per agreement in order — the per-agreement result for the ones that
succeed, the error entry for the ones that throw — and the total count is
the sum of the record counts of the successful agreements. -/
theorem syncAll_partial_failure_isolated (agreements : List AgreementRec)
    (f : AgreementRec → Except String AgreementSyncResult)
    (hfail : ∃ a ∈ agreements, ∃ e, f a = .error e) :
    (syncAllInvoices agreements f).results.length = agreements.length ∧
    (syncAllInvoices agreements f).results =
      agreements.map (fun a =>
        match f a with
        | .ok r => AgreementEntry.ok r
        | .error e => AgreementEntry.err a e) ∧
    (syncAllInvoices agreements f).totalCount =
      (agreements.map (fun a =>
        match f a with
        | .ok r => r.totalCount
        | .error _ => 0)).sum := by
  obtain ⟨a, ha, e, he⟩ := hfail
  have hne : agreements.isEmpty = false := by
    cases agreements with
    | nil => exact absurd ha (List.not_mem_nil a)
    | cons x xs => rfl
  simp [syncAllInvoices, hne, syncAllStep_foldl f agreements ([], 0)]

/-- The three agreements of the C4 witness. -/
def exAgA : AgreementRec := ⟨1, "A", some 7⟩

/-- Second witness agreement (the failing one). -/
def exAgB : AgreementRec := ⟨2, "B", some 8⟩

/-- Third witness agreement. -/
def exAgC : AgreementRec := ⟨3, "C", some 9⟩

/-- Witness per-agreement sync: agreement 2 throws, the others process 5
records each. -/
def exSyncFn (a : AgreementRec) : Except String AgreementSyncResult :=
  if a.id == 2 then .error "boom" else .ok ⟨a, 5⟩

/-- C4 witness: of three agreements the second throws; the orchestrator
reports all three and totals the two successes. -/
theorem syncAll_partial_failure_isolated_witness :
    (∃ a ∈ [exAgA, exAgB, exAgC], ∃ e, exSyncFn a = .error e) ∧
    ((syncAllInvoices [exAgA, exAgB, exAgC] exSyncFn).results.length =
        [exAgA, exAgB, exAgC].length ∧
      (syncAllInvoices [exAgA, exAgB, exAgC] exSyncFn).results =
        [exAgA, exAgB, exAgC].map (fun a =>
          match exSyncFn a with
          | .ok r => AgreementEntry.ok r
          | .error e => AgreementEntry.err a e) ∧
      (syncAllInvoices [exAgA, exAgB, exAgC] exSyncFn).totalCount =
        ([exAgA, exAgB, exAgC].map (fun a =>
          match exSyncFn a with
          | .ok r => r.totalCount
          | .error _ => 0)).sum) :=
  ⟨⟨exAgB, by simp, "boom", rfl⟩,
    syncAll_partial_failure_isolated [exAgA, exAgB, exAgC] exSyncFn
      ⟨exAgB, by simp, "boom", rfl⟩⟩

/-! ## C2: lemmas about the year upsert and the entry batch upsert -/

/-- One `AccountingYearModel.upsert` leaves exactly one row under the
natural key, provided the key was not already duplicated. -/
theorem year_upsert_count (d : YearData) (db : List YearRow)
    (h : (db.filter (yearKey d)).length ≤ 1) :
    ((yearUpsert d db).filter (yearKey d)).length = 1 := by
  cases hf : findByYearAndAgreement d.year d.agreement_number db with
  | none =>
      have hnil : db.filter (yearKey d) = [] := by
        apply List.filter_eq_nil_iff.mpr
        intro r hr
        have := List.find?_eq_none.mp hf r hr
        simpa [yearKey] using this
      simp [yearUpsert, hf, List.filter_append, hnil, yearKey]
  | some w =>
      have hw : w ∈ db ∧ yearKey d w = true := by
        refine ⟨List.mem_of_find?_eq_some hf, ?_⟩
        have := List.find?_some hf
        simpa [yearKey] using this
      have hpos : 0 < (db.filter (yearKey d)).length := by
        apply List.length_pos.mpr
        intro hemp
        have : w ∈ db.filter (yearKey d) := List.mem_filter.mpr ⟨hw.1, hw.2⟩
        rw [hemp] at this
        exact List.not_mem_nil w this
      have hcnt : ((yearUpsert d db).filter (yearKey d)).length =
          (db.filter (yearKey d)).length := by
        simp only [yearUpsert, hf]
        rw [← List.countP_eq_length_filter, ← List.countP_eq_length_filter,
          List.countP_map]
        apply List.countP_congr
        intro a _
        simp only [Function.comp]
        by_cases ha : yearKey d a = true
        · rw [if_pos ha]
          exact Iff.rfl
        · rw [if_neg ha]
      omega

/-- `e` has a stored row under its `(entry_number, year, agreement_number)`
key in `db`. -/
def entryKeyIn (e : AccountingEntry) (db : List AccountingEntry) : Prop :=
  ∃ r ∈ db, entryKey e r = true

/-- Both key-matching relations agree, and matching rows share the key
fields. -/
theorem entryKey_fields {e r : AccountingEntry} (h : entryKey e r = true) :
    r.entry_number = e.entry_number ∧ r.year = e.year ∧
      r.agreement_number = e.agreement_number := by
  simpa [entryKey, and_assoc] using h

/-- The `batchUpsert` lookup hits exactly when the key is stored. -/
theorem entry_find_isSome (e : AccountingEntry) (db : List AccountingEntry) :
    (findByEntryNumberYearAndAgreement e.entry_number e.year
        e.agreement_number db).isSome = true ↔ entryKeyIn e db := by
  simp [findByEntryNumberYearAndAgreement, List.find?_isSome, entryKeyIn,
    entryKey]

/-- A processed entry never removes any stored key. -/
theorem entry_step_preserves (k e : AccountingEntry) (st : EntryBatchState)
    (h : entryKeyIn k st.db) : entryKeyIn k (entryUpsertStep st e).db := by
  obtain ⟨r, hr, hkr⟩ := h
  cases hf : findByEntryNumberYearAndAgreement e.entry_number e.year
      e.agreement_number st.db with
  | none => exact ⟨r, by simp [entryUpsertStep, hf, hr], hkr⟩
  | some w =>
      by_cases hek : entryKey e r = true
      · refine ⟨e, ?_, ?_⟩
        · simp only [entryUpsertStep, hf]
          exact List.mem_map.mpr ⟨r, hr, by simp [hek]⟩
        · obtain ⟨h1, h2, h3⟩ := entryKey_fields hek
          obtain ⟨k1, k2, k3⟩ := entryKey_fields hkr
          simp [entryKey, ← h1, ← h2, ← h3, k1, k2, k3]
      · refine ⟨r, ?_, hkr⟩
        simp only [entryUpsertStep, hf]
        exact List.mem_map.mpr ⟨r, hr, by simp [hek]⟩

/-- After its own step, the processed entry's key is stored. -/
theorem entry_step_adds (e : AccountingEntry) (st : EntryBatchState) :
    entryKeyIn e (entryUpsertStep st e).db := by
  cases hf : findByEntryNumberYearAndAgreement e.entry_number e.year
      e.agreement_number st.db with
  | none =>
      refine ⟨e, ?_, by simp [entryKey]⟩
      simp [entryUpsertStep, hf]
  | some w =>
      have hw : entryKeyIn e st.db := by
        refine ⟨w, List.mem_of_find?_eq_some hf, ?_⟩
        have := List.find?_some hf
        simpa [entryKey] using this
      have := entry_step_preserves e e st hw
      exact this

/-- Folding the per-entry step preserves every stored key. -/
theorem entry_foldl_preserves (es : List AccountingEntry) :
    ∀ (st : EntryBatchState) (k : AccountingEntry), entryKeyIn k st.db →
      entryKeyIn k (es.foldl entryUpsertStep st).db := by
  induction es with
  | nil => intro st k h; exact h
  | cons a l ih =>
      intro st k h
      exact ih _ k (entry_step_preserves k a st h)

/-- After one full pass, every processed entry's key is stored. -/
theorem entry_foldl_adds (es : List AccountingEntry) :
    ∀ (st : EntryBatchState), ∀ e ∈ es,
      entryKeyIn e ((es.foldl entryUpsertStep st)).db := by
  induction es with
  | nil => intro st e he; exact absurd he (List.not_mem_nil e)
  | cons a l ih =>
      intro st e he
      rcases List.mem_cons.mp he with rfl | he'
      · exact entry_foldl_preserves l _ e (entry_step_adds e st)
      · exact ih _ e he'

/-- When every entry's key is already stored, a pass performs only
updates: `inserted` is unchanged and `updated` grows by the batch size. -/
theorem entry_foldl_counts (es : List AccountingEntry) :
    ∀ (st : EntryBatchState), (∀ e ∈ es, entryKeyIn e st.db) →
      (es.foldl entryUpsertStep st).inserted = st.inserted ∧
      (es.foldl entryUpsertStep st).updated = st.updated + es.length := by
  induction es with
  | nil => intro st _; exact ⟨rfl, rfl⟩
  | cons a l ih =>
      intro st h
      have ha : entryKeyIn a st.db := h a (List.mem_cons_self a l)
      have hfs : (findByEntryNumberYearAndAgreement a.entry_number a.year
          a.agreement_number st.db).isSome = true :=
        (entry_find_isSome a st.db).mpr ha
      obtain ⟨w, hw⟩ := Option.isSome_iff_exists.mp hfs
      have hstep : entryUpsertStep st a =
          { db := st.db.map (fun r => if entryKey a r then a else r),
            inserted := st.inserted, updated := st.updated + 1 } := by
        simp [entryUpsertStep, hw]
      have hrest : ∀ e ∈ l, entryKeyIn e (entryUpsertStep st a).db := by
        intro e he
        exact entry_step_preserves e a st (h e (List.mem_cons_of_mem a he))
      have := ih (entryUpsertStep st a) hrest
      rw [List.foldl_cons]
      refine ⟨?_, ?_⟩
      · rw [this.1, hstep]
      · rw [this.2, hstep]
        simp only [List.length_cons]
        omega

/-- The chunked loop of `batchUpsert` is the plain left fold of the
per-entry step: chunk boundaries only delimit transactions. -/
theorem entryBatchGo_eq (es : List AccountingEntry) (st : EntryBatchState) :
    entryBatchGo st es = es.foldl entryUpsertStep st := by
  have H : ∀ (n : Nat) (es : List AccountingEntry) (st : EntryBatchState),
      es.length ≤ n → entryBatchGo st es = es.foldl entryUpsertStep st := by
    intro n
    induction n with
    | zero =>
        intro es st h
        have : es = [] := List.length_eq_zero.mp (Nat.le_zero.mp h)
        subst this
        rw [entryBatchGo]
        rfl
    | succ n ih =>
        intro es st h
        cases es with
        | nil =>
            rw [entryBatchGo]
            rfl
        | cons e rest =>
            rw [entryBatchGo]
            rw [ih ((e :: rest).drop 100) _ (by
              simp only [List.length_drop, List.length_cons]
              simp only [List.length_cons] at h
              omega)]
            rw [← List.foldl_append]
            rw [List.take_append_drop]
  exact H es.length es st le_rfl

/-- C2: idempotent upsert.  A second `AccountingYearModel.upsert` of the
same transformed row leaves exactly one stored row under its natural key
(no duplicate insert), and a second `AccountingEntryModel.batchUpsert` of
the same batch reports `inserted = 0` and `updated` equal to the batch
size, because every natural key is looked up before the insert-or-update
decision. -/
theorem upsert_idempotent (ydb : List YearRow) (d : YearData)
    (hy : (ydb.filter (yearKey d)).length ≤ 1)
    (edb : List AccountingEntry) (es : List AccountingEntry) :
    ((yearUpsert d (yearUpsert d ydb)).filter (yearKey d)).length = 1 ∧
    (entryBatchUpsert es (entryBatchUpsert es edb).db).inserted = 0 ∧
    (entryBatchUpsert es (entryBatchUpsert es edb).db).updated = es.length := by
  refine ⟨?_, ?_⟩
  · exact year_upsert_count d _ (le_of_eq (year_upsert_count d ydb hy))
  · cases es with
    | nil => exact ⟨rfl, rfl⟩
    | cons e rest =>
        have hne : (e :: rest).isEmpty = false := rfl
        have hrun1 : (entryBatchUpsert (e :: rest) edb).db =
            ((e :: rest).foldl entryUpsertStep ⟨edb, 0, 0⟩).db := by
          simp [entryBatchUpsert, hne, entryBatchGo_eq]
        have hkeys : ∀ x ∈ (e :: rest),
            entryKeyIn x (entryBatchUpsert (e :: rest) edb).db := by
          intro x hx
          rw [hrun1]
          exact entry_foldl_adds (e :: rest) ⟨edb, 0, 0⟩ x hx
        have hrun2 : entryBatchUpsert (e :: rest)
            (entryBatchUpsert (e :: rest) edb).db =
            (e :: rest).foldl entryUpsertStep
              ⟨(entryBatchUpsert (e :: rest) edb).db, 0, 0⟩ := by
          simp [entryBatchUpsert, hne, entryBatchGo_eq]
        have := entry_foldl_counts (e :: rest)
          ⟨(entryBatchUpsert (e :: rest) edb).db, 0, 0⟩ hkeys
        rw [hrun2]
        refine ⟨this.1, ?_⟩
        rw [this.2]
        simp

/-- Concrete accounting year for the C2 witness. -/
def exYearD : YearData := ⟨2024, 7, 100, 200, false, "u"⟩

/-- Concrete accounting entries for the C2 witness. -/
def exEntry0 : AccountingEntry :=
  ⟨1, 2024, 1, 7, 4, 5, 5, "DKK", 0, "t", none, none, "u"⟩

/-- Second concrete accounting entry for the C2 witness. -/
def exEntry1 : AccountingEntry :=
  ⟨2, 2024, 1, 7, 4, 6, 6, "DKK", 0, "t", none, none, "u"⟩

/-- C2 witness: double upsert from an empty store keeps one year row, and
re-upserting a two-entry batch reports `inserted = 0, updated = 2`. -/
theorem upsert_idempotent_witness :
    (([] : List YearRow).filter (yearKey exYearD)).length ≤ 1 ∧
    (((yearUpsert exYearD (yearUpsert exYearD [])).filter
        (yearKey exYearD)).length = 1 ∧
      (entryBatchUpsert [exEntry0, exEntry1]
        (entryBatchUpsert [exEntry0, exEntry1] []).db).inserted = 0 ∧
      (entryBatchUpsert [exEntry0, exEntry1]
        (entryBatchUpsert [exEntry0, exEntry1] []).db).updated =
          [exEntry0, exEntry1].length) :=
  ⟨by decide, upsert_idempotent [] exYearD (by decide) [] [exEntry0, exEntry1]⟩

/-! ## C9: lemmas about the accounting-total sentinel -/

/-- A processed total never stores a `NULL` period: the update branch
leaves `period_number` untouched and the insert branch writes the
normalized `periodValue`. -/
theorem total_step_nonull (st : TotalBatchState) (t : TotalData)
    (h : ∀ r ∈ st.db, r.period_number.isSome = true) :
    ∀ r ∈ (totalUpsertStep st t).db, r.period_number.isSome = true := by
  cases hf : findByKeys t.account_number t.year
      (some (normalizePeriod t.period_number)) t.agreement_number st.db with
  | none =>
      intro r hr
      simp only [totalUpsertStep, hf] at hr
      rcases List.mem_append.mp hr with h1 | h1
      · exact h r h1
      · rw [List.mem_singleton.mp h1]
        rfl
  | some w =>
      intro r hr
      simp only [totalUpsertStep, hf] at hr
      obtain ⟨a, ha, rfl⟩ := List.mem_map.mp hr
      by_cases hk : totalKey t a = true
      · rw [if_pos hk]
        exact h a ha
      · rw [if_neg hk]
        exact h a ha

/-- The no-`NULL`-period invariant is preserved by a whole pass. -/
theorem total_foldl_nonull (ts : List TotalData) :
    ∀ (st : TotalBatchState),
      (∀ r ∈ st.db, r.period_number.isSome = true) →
      ∀ r ∈ (ts.foldl totalUpsertStep st).db, r.period_number.isSome = true := by
  induction ts with
  | nil => intro st h; exact h
  | cons t rest ih =>
      intro st h
      exact ih _ (total_step_nonull st t h)

/-- The chunked loop of the totals `batchUpsert` is the plain left fold of
the per-total step. -/
theorem totalBatchGo_eq (ts : List TotalData) (st : TotalBatchState) :
    totalBatchGo st ts = ts.foldl totalUpsertStep st := by
  have H : ∀ (n : Nat) (ts : List TotalData) (st : TotalBatchState),
      ts.length ≤ n → totalBatchGo st ts = ts.foldl totalUpsertStep st := by
    intro n
    induction n with
    | zero =>
        intro ts st h
        have : ts = [] := List.length_eq_zero.mp (Nat.le_zero.mp h)
        subst this
        rw [totalBatchGo]
        rfl
    | succ n ih =>
        intro ts st h
        cases ts with
        | nil =>
            rw [totalBatchGo]
            rfl
        | cons t rest =>
            rw [totalBatchGo]
            rw [ih ((t :: rest).drop 100) _ (by
              simp only [List.length_drop, List.length_cons]
              simp only [List.length_cons] at h
              omega)]
            rw [← List.foldl_append]
            rw [List.take_append_drop]
  exact H ts.length ts st le_rfl

/-- C9: the period-zero sentinel.  `findByKeys` normalizes a `null` period
to `0` before the lookup; a batch upsert never leaves a stored row with a
`NULL` `period_number`; and a year-level total transformed with a `null`
period matches a row previously stored under `period_number = 0` and
updates it in place instead of inserting a duplicate. -/
theorem period_sentinel (db : List TotalRow) (ts : List TotalData)
    (hnn : ∀ r ∈ db, r.period_number.isSome = true)
    (total : ApiTotal) (year agr : Int) (ex : TotalRow)
    (hex : findByKeys total.accountNumber year (some 0) agr db = some ex) :
    (∀ (a y g : Int), findByKeys a y none g db = findByKeys a y (some 0) g db) ∧
    (∀ r ∈ (totalBatchUpsert ts db).db, r.period_number.isSome = true) ∧
    ((totalBatchUpsert [transformAccountingTotalData total year none agr]
        db).inserted = 0 ∧
      (totalBatchUpsert [transformAccountingTotalData total year none agr]
        db).updated = 1 ∧
      (totalBatchUpsert [transformAccountingTotalData total year none agr]
        db).db.length = db.length) := by
  refine ⟨fun a y g => rfl, ?_, ?_⟩
  · cases ts with
    | nil => exact hnn
    | cons t rest =>
        have hne : (t :: rest).isEmpty = false := rfl
        have hrw : totalBatchUpsert (t :: rest) db =
            (t :: rest).foldl totalUpsertStep ⟨db, 0, 0⟩ := by
          simp [totalBatchUpsert, hne, totalBatchGo_eq]
        rw [hrw]
        exact total_foldl_nonull (t :: rest) ⟨db, 0, 0⟩ hnn
  · have ht : transformAccountingTotalData total year none agr =
        ⟨total.accountNumber, year, some 0, agr, total.totalInBaseCurrency,
          total.fromDate, total.toDate⟩ := rfl
    have h1 : totalBatchUpsert
        [transformAccountingTotalData total year none agr] db =
        totalUpsertStep ⟨db, 0, 0⟩
          (transformAccountingTotalData total year none agr) := by
      simp [totalBatchUpsert, totalBatchGo_eq]
    rw [h1, ht]
    simp [totalUpsertStep, normalizePeriod, hex]

/-- The remote total used by the C9 witness. -/
def exApiTotal : ApiTotal := ⟨4, 250, 11, 12⟩

/-- The previously stored year-level total row (period 0) for the C9
witness. -/
def exTotalRow : TotalRow := ⟨4, 2024, some 0, 7, 100, 11, 12⟩

/-- C9 witness: a year-level total (period `null`) re-upserted over its
period-0 row updates in place. -/
theorem period_sentinel_witness :
    (∀ r ∈ [exTotalRow], r.period_number.isSome = true) ∧
    (findByKeys exApiTotal.accountNumber 2024 (some 0) 7 [exTotalRow] =
      some exTotalRow) ∧
    ((∀ (a y g : Int), findByKeys a y none g [exTotalRow] =
        findByKeys a y (some 0) g [exTotalRow]) ∧
      (∀ r ∈ (totalBatchUpsert [] [exTotalRow]).db,
        r.period_number.isSome = true) ∧
      ((totalBatchUpsert [transformAccountingTotalData exApiTotal 2024 none 7]
          [exTotalRow]).inserted = 0 ∧
        (totalBatchUpsert [transformAccountingTotalData exApiTotal 2024 none 7]
          [exTotalRow]).updated = 1 ∧
        (totalBatchUpsert [transformAccountingTotalData exApiTotal 2024 none 7]
          [exTotalRow]).db.length = [exTotalRow].length)) :=
  ⟨by decide, by decide,
    period_sentinel [exTotalRow] [] (by decide) exApiTotal 2024 7 exTotalRow
      (by decide)⟩

/-! ## C6: lemmas about the duplicate-invoice cleanup -/

/-- `countP` of a disjunction of disjoint predicates adds up. -/
theorem countP_or_disjoint (l : List Nat) (p q : Nat → Bool)
    (h : ∀ x ∈ l, ¬(p x = true ∧ q x = true)) :
    l.countP (fun x => p x || q x) = l.countP p + l.countP q := by
  induction l with
  | nil => simp
  | cons a l ih =>
      have ha := h a (List.mem_cons_self a l)
      have hrest : ∀ x ∈ l, ¬(p x = true ∧ q x = true) :=
        fun x hx => h x (List.mem_cons_of_mem a hx)
      cases hp : p a with
      | true =>
          cases hq : q a with
          | true => exact absurd ⟨hp, hq⟩ ha
          | false =>
              simp [List.countP_cons, hp, hq, ih hrest]
              omega
      | false =>
          cases hq : q a with
          | true =>
              simp [List.countP_cons, hp, hq, ih hrest]
              omega
          | false => simp [List.countP_cons, hp, hq, ih hrest]

/-- In a list of distinct keys, a duplicate-free sub-collection of those
keys is hit exactly once each. -/
theorem countP_ids_of_nodup (nl : List Nat) (hnl : nl.Nodup) :
    ∀ (ids : List Nat), ids.Nodup → (∀ i ∈ ids, i ∈ nl) →
      nl.countP (fun x => ids.contains x) = ids.length := by
  intro ids
  induction ids with
  | nil =>
      intro _ _
      have hfun : (fun x => ([] : List Nat).contains x) =
          fun _ : Nat => false := rfl
      rw [hfun, List.countP_false]
      rfl
  | cons i is ih =>
      intro hids hsub
      have hi : i ∈ nl := hsub i (List.mem_cons_self i is)
      have his : ∀ j ∈ is, j ∈ nl :=
        fun j hj => hsub j (List.mem_cons_of_mem i hj)
      have hnotin : i ∉ is := (List.nodup_cons.mp hids).1
      have hisnd : is.Nodup := (List.nodup_cons.mp hids).2
      have hfun : (fun x => (i :: is).contains x) =
          fun x => (x == i || is.contains x) := rfl
      rw [hfun, countP_or_disjoint]
      · have h1 : nl.countP (fun x => x == i) = 1 :=
          List.count_eq_one_of_mem hnl hi
        rw [h1, ih hisnd his, List.length_cons]
        omega
      · intro x _ hx
        obtain ⟨hxi, hxis⟩ := hx
        have : x ∈ is := List.elem_iff.mp hxis
        rw [eq_of_beq hxi] at this
        exact hnotin this

/-- Skip branch: a group with at most one row is left untouched. -/
theorem cleanupNumber_noop (g n : Int) (st : List InvoiceRow × Nat)
    (h : (st.1.filter (invKey g n)).length ≤ 1) :
    cleanupNumber g n st = st := by
  simp only [cleanupNumber]
  rw [if_pos h]

/-- Delete branch unfolded. -/
theorem cleanupNumber_del (g n : Int) (st : List InvoiceRow × Nat)
    (h : ¬(st.1.filter (invKey g n)).length ≤ 1) :
    cleanupNumber g n st =
      (st.1.filter (fun r =>
        !((((st.1.filter (invKey g n)).insertionSort
            moreRecent).tail.map InvoiceRow.id).contains r.id)),
       st.2 + ((st.1.filter (invKey g n)).insertionSort
         moreRecent).tail.length) := by
  simp only [cleanupNumber]
  rw [if_neg h]

/-- A row whose id is slated for deletion is one of the duplicate-group
tail rows (ids are unique across the table). -/
theorem cleanup_del_mem (g n : Int) (st : List InvoiceRow × Nat)
    (hnd : (st.1.map InvoiceRow.id).Nodup) (r : InvoiceRow) (hr : r ∈ st.1)
    (hdel : ((((st.1.filter (invKey g n)).insertionSort
        moreRecent).tail.map InvoiceRow.id).contains r.id) = true) :
    r ∈ ((st.1.filter (invKey g n)).insertionSort moreRecent).tail := by
  have hidmem : r.id ∈ ((st.1.filter (invKey g n)).insertionSort
      moreRecent).tail.map InvoiceRow.id := List.elem_iff.mp hdel
  obtain ⟨t, ht, hid⟩ := List.mem_map.mp hidmem
  have htsorted : t ∈ (st.1.filter (invKey g n)).insertionSort moreRecent :=
    List.mem_of_mem_tail ht
  have htgroup : t ∈ st.1.filter (invKey g n) :=
    (List.perm_insertionSort _ _).mem_iff.mp htsorted
  have htst : t ∈ st.1 := (List.filter_sublist _).subset htgroup
  have : r = t := List.inj_on_of_nodup_map hnd hr htst hid.symm
  rw [this]
  exact ht

/-- Conservation: the rows a step deletes are exactly the rows it counts,
so table length plus counter is invariant. -/
theorem cleanupNumber_conserve (g n : Int) (st : List InvoiceRow × Nat)
    (hnd : (st.1.map InvoiceRow.id).Nodup) :
    (cleanupNumber g n st).1.length + (cleanupNumber g n st).2 =
      st.1.length + st.2 := by
  by_cases h : (st.1.filter (invKey g n)).length ≤ 1
  · rw [cleanupNumber_noop g n st h]
  · rw [cleanupNumber_del g n st h]
    have hperm : List.Perm ((st.1.filter (invKey g n)).insertionSort
        moreRecent) (st.1.filter (invKey g n)) := List.perm_insertionSort _ _
    have hgsub : List.Sublist (st.1.filter (invKey g n)) st.1 :=
      List.filter_sublist _
    have hgidnd : ((st.1.filter (invKey g n)).map InvoiceRow.id).Nodup :=
      hnd.sublist (hgsub.map _)
    have hsidnd : (((st.1.filter (invKey g n)).insertionSort
        moreRecent).map InvoiceRow.id).Nodup :=
      ((hperm.map _).nodup_iff).mpr hgidnd
    have htidnd : ((((st.1.filter (invKey g n)).insertionSort
        moreRecent).tail).map InvoiceRow.id).Nodup :=
      hsidnd.sublist ((List.tail_sublist _).map _)
    have hsubids : ∀ i ∈ (((st.1.filter (invKey g n)).insertionSort
        moreRecent).tail).map InvoiceRow.id, i ∈ st.1.map InvoiceRow.id := by
      intro i hi2
      obtain ⟨t, ht, rfl⟩ := List.mem_map.mp hi2
      have h1 : t ∈ (st.1.filter (invKey g n)).insertionSort moreRecent :=
        List.mem_of_mem_tail ht
      have h2 : t ∈ st.1.filter (invKey g n) := hperm.mem_iff.mp h1
      exact List.mem_map_of_mem _ (hgsub.subset h2)
    have hcnt : st.1.countP (fun r =>
        ((((st.1.filter (invKey g n)).insertionSort
          moreRecent).tail).map InvoiceRow.id).contains r.id) =
        ((((st.1.filter (invKey g n)).insertionSort
          moreRecent).tail).map InvoiceRow.id).length := by
      have := countP_ids_of_nodup (st.1.map InvoiceRow.id)
        hnd _ htidnd hsubids
      rw [List.countP_map] at this
      exact this
    have hsplit : st.1.length = st.1.countP (fun r =>
        ((((st.1.filter (invKey g n)).insertionSort
          moreRecent).tail).map InvoiceRow.id).contains r.id) +
        st.1.countP (fun r =>
        !(((((st.1.filter (invKey g n)).insertionSort
          moreRecent).tail).map InvoiceRow.id).contains r.id)) := by
      rw [List.length_eq_countP_add_countP (fun r =>
        ((((st.1.filter (invKey g n)).insertionSort
          moreRecent).tail).map InvoiceRow.id).contains r.id) st.1]
      congr 1
      apply List.countP_congr
      intro a _
      simp
    have hflen : (st.1.filter (fun r =>
        !(((((st.1.filter (invKey g n)).insertionSort
          moreRecent).tail).map InvoiceRow.id).contains r.id))).length =
        st.1.countP (fun r =>
        !(((((st.1.filter (invKey g n)).insertionSort
          moreRecent).tail).map InvoiceRow.id).contains r.id)) :=
      (List.countP_eq_length_filter _ _).symm
    have hlenmap : ((((st.1.filter (invKey g n)).insertionSort
        moreRecent).tail).map InvoiceRow.id).length =
        (((st.1.filter (invKey g n)).insertionSort
          moreRecent).tail).length := List.length_map _ _
    simp only [hflen]
    omega

/-- Collapse: with at least two rows in the group, the step keeps exactly
one row of the group, and that row has the greatest `updated_at` of the
group. -/
theorem cleanupNumber_collapse (g n : Int) (st : List InvoiceRow × Nat)
    (hnd : (st.1.map InvoiceRow.id).Nodup)
    (h2 : 2 ≤ (st.1.filter (invKey g n)).length) :
    ∃ m, (cleanupNumber g n st).1.filter (invKey g n) = [m] ∧
      m ∈ st.1.filter (invKey g n) ∧
      ∀ r ∈ st.1.filter (invKey g n), r.updated_at ≤ m.updated_at := by
  have h : ¬(st.1.filter (invKey g n)).length ≤ 1 := by omega
  rw [cleanupNumber_del g n st h]
  have hperm : List.Perm ((st.1.filter (invKey g n)).insertionSort
      moreRecent) (st.1.filter (invKey g n)) := List.perm_insertionSort _ _
  have hsorted : List.Sorted moreRecent ((st.1.filter (invKey g n)).insertionSort
      moreRecent) := List.sorted_insertionSort _ _
  have hgsub : List.Sublist (st.1.filter (invKey g n)) st.1 :=
    List.filter_sublist _
  have hsidnd : (((st.1.filter (invKey g n)).insertionSort
      moreRecent).map InvoiceRow.id).Nodup :=
    ((hperm.map _).nodup_iff).mpr (hnd.sublist (hgsub.map _))
  have hlen : 2 ≤ ((st.1.filter (invKey g n)).insertionSort
      moreRecent).length := by rw [hperm.length_eq]; exact h2
  obtain ⟨m, tl, hcons⟩ : ∃ m tl, (st.1.filter (invKey g n)).insertionSort
      moreRecent = m :: tl := by
    cases hs : (st.1.filter (invKey g n)).insertionSort moreRecent with
    | nil => rw [hs] at hlen; simp at hlen
    | cons x xs => exact ⟨x, xs, rfl⟩
  rw [hcons] at hperm hsorted hsidnd
  rw [hcons]
  simp only [List.tail_cons]
  have hmid : m.id ∉ tl.map InvoiceRow.id := by
    rw [List.map_cons, List.nodup_cons] at hsidnd
    exact hsidnd.1
  have hnotdel_m : (!((tl.map InvoiceRow.id).contains m.id)) = true := by
    cases hc : (tl.map InvoiceRow.id).contains m.id with
    | false => rfl
    | true => exact absurd (List.elem_iff.mp hc) hmid
  refine ⟨m, ?_, ?_, ?_⟩
  · rw [List.filter_comm]
    have hpf : List.Perm ((m :: tl).filter (fun r =>
        !((tl.map InvoiceRow.id).contains r.id)))
        ((st.1.filter (invKey g n)).filter (fun r =>
          !((tl.map InvoiceRow.id).contains r.id))) := hperm.filter _
    have htl : tl.filter (fun r =>
        !((tl.map InvoiceRow.id).contains r.id)) = [] := by
      apply List.filter_eq_nil_iff.mpr
      intro t ht h'
      have hc : (tl.map InvoiceRow.id).contains t.id = true :=
        List.elem_iff.mpr (List.mem_map_of_mem _ ht)
      rw [hc] at h'
      simp at h'
    have hcompute : (m :: tl).filter (fun r =>
        !((tl.map InvoiceRow.id).contains r.id)) = [m] := by
      rw [List.filter_cons, if_pos hnotdel_m, htl]
    rw [hcompute] at hpf
    exact (List.perm_singleton.mp hpf.symm)
  · exact hperm.mem_iff.mp (List.mem_cons_self m tl)
  · intro r hr
    rcases List.mem_cons.mp (hperm.mem_iff.mpr hr) with rfl | hrtl
    · exact le_refl _
    · exact (List.sorted_cons.mp hsorted).1 r hrtl

/-- Any other `(agreement, invoice-number)` group is untouched by the
step. -/
theorem cleanupNumber_other (g n g' n' : Int) (st : List InvoiceRow × Nat)
    (hnd : (st.1.map InvoiceRow.id).Nodup)
    (hne : ¬(g' = g ∧ n' = n)) :
    (cleanupNumber g n st).1.filter (invKey g' n') =
      st.1.filter (invKey g' n') := by
  by_cases h : (st.1.filter (invKey g n)).length ≤ 1
  · rw [cleanupNumber_noop g n st h]
  · rw [cleanupNumber_del g n st h]
    rw [List.filter_comm]
    apply List.filter_eq_self.mpr
    intro a ha
    have haK : invKey g' n' a = true := (List.mem_filter.mp ha).2
    have hast : a ∈ st.1 := (List.mem_filter.mp ha).1
    cases hc : ((((st.1.filter (invKey g n)).insertionSort
        moreRecent).tail).map InvoiceRow.id).contains a.id with
    | false => simp [hc]
    | true =>
        exfalso
        have hmem := cleanup_del_mem g n st hnd a hast hc
        have hgroup : a ∈ st.1.filter (invKey g n) :=
          (List.perm_insertionSort _ _).mem_iff.mp
            (List.mem_of_mem_tail hmem)
        have haK2 : invKey g n a = true := (List.mem_filter.mp hgroup).2
        simp only [invKey, Bool.and_eq_true, beq_iff_eq] at haK haK2
        exact hne ⟨Option.some.inj (haK.2.symm.trans haK2.2),
          Option.some.inj (haK.1.symm.trans haK2.1)⟩

/-- A step never adds rows. -/
theorem cleanupNumber_sublist (g n : Int) (st : List InvoiceRow × Nat) :
    List.Sublist (cleanupNumber g n st).1 st.1 := by
  by_cases h : (st.1.filter (invKey g n)).length ≤ 1
  · rw [cleanupNumber_noop g n st h]
  · rw [cleanupNumber_del g n st h]
    exact List.filter_sublist _

/-- The whole per-agreement number pass never adds rows. -/
theorem foldNumbers_sublist (g : Int) (nums : List Int) :
    ∀ st : List InvoiceRow × Nat,
      List.Sublist ((nums.foldl (fun acc n => cleanupNumber g n acc) st)).1
        st.1 := by
  induction nums with
  | nil => intro st; exact List.Sublist.refl _
  | cons m ms ih =>
      intro st
      exact (ih (cleanupNumber g m st)).trans (cleanupNumber_sublist g m st)

/-- Distinct ids survive any table shrink. -/
theorem nodup_of_sublist_table {l l' : List InvoiceRow}
    (h : List.Sublist l' l) (hnd : (l.map InvoiceRow.id).Nodup) :
    (l'.map InvoiceRow.id).Nodup := hnd.sublist (h.map _)

/-- A shrink never grows any filtered group. -/
theorem filter_length_mono {l l' : List InvoiceRow} (p : InvoiceRow → Bool)
    (h : List.Sublist l' l) : (l'.filter p).length ≤ (l.filter p).length :=
  (h.filter p).length_le

/-- Conservation through the per-agreement number pass. -/
theorem foldNumbers_conserve (g : Int) (nums : List Int) :
    ∀ st : List InvoiceRow × Nat, (st.1.map InvoiceRow.id).Nodup →
      ((nums.foldl (fun acc n => cleanupNumber g n acc) st)).1.length +
        ((nums.foldl (fun acc n => cleanupNumber g n acc) st)).2 =
        st.1.length + st.2 := by
  induction nums with
  | nil => intro st _; rfl
  | cons m ms ih =>
      intro st hnd
      have hstep := cleanupNumber_conserve g m st hnd
      have hnd' := nodup_of_sublist_table (cleanupNumber_sublist g m st) hnd
      rw [List.foldl_cons, ih (cleanupNumber g m st) hnd']
      omega

/-- After its own step a group has at most one row. -/
theorem cleanupNumber_self_le_one (g n : Int) (st : List InvoiceRow × Nat)
    (hnd : (st.1.map InvoiceRow.id).Nodup) :
    ((cleanupNumber g n st).1.filter (invKey g n)).length ≤ 1 := by
  by_cases h : (st.1.filter (invKey g n)).length ≤ 1
  · rw [cleanupNumber_noop g n st h]
    exact h
  · obtain ⟨m, hm, _, _⟩ := cleanupNumber_collapse g n st hnd (by omega)
    rw [hm]
    exact le_refl 1

/-- Every number processed in a per-agreement pass ends with at most one
stored row in its group. -/
theorem foldNumbers_collapsed (g : Int) (nums : List Int) :
    ∀ st : List InvoiceRow × Nat, (st.1.map InvoiceRow.id).Nodup →
      ∀ n ∈ nums,
        (((nums.foldl (fun acc n => cleanupNumber g n acc) st)).1.filter
          (invKey g n)).length ≤ 1 := by
  induction nums with
  | nil => intro st _ n hn; exact absurd hn (List.not_mem_nil n)
  | cons m ms ih =>
      intro st hnd n hn
      rw [List.foldl_cons]
      have hnd' := nodup_of_sublist_table (cleanupNumber_sublist g m st) hnd
      by_cases hn' : n ∈ ms
      · exact ih _ hnd' n hn'
      · have hnm : n = m := by
          rcases List.mem_cons.mp hn with h | h
          · exact h
          · exact absurd h hn'
        subst hnm
        have h1 := cleanupNumber_self_le_one g n st hnd
        have h2 := filter_length_mono (invKey g n)
          (foldNumbers_sublist g ms (cleanupNumber g n st))
        omega

/-- A per-agreement pass never adds rows. -/
theorem cleanupAgreement_sublist (st : List InvoiceRow × Nat)
    (a : AgreementRec) : List.Sublist (cleanupAgreement st a).1 st.1 := by
  cases ha : a.agreement_number with
  | none =>
      simp only [cleanupAgreement, ha]
      exact List.Sublist.refl _
  | some g =>
      simp only [cleanupAgreement, ha]
      exact foldNumbers_sublist g _ st

/-- Conservation through a per-agreement pass. -/
theorem cleanupAgreement_conserve (st : List InvoiceRow × Nat)
    (a : AgreementRec) (hnd : (st.1.map InvoiceRow.id).Nodup) :
    (cleanupAgreement st a).1.length + (cleanupAgreement st a).2 =
      st.1.length + st.2 := by
  cases ha : a.agreement_number with
  | none => simp only [cleanupAgreement, ha]
  | some g =>
      simp only [cleanupAgreement, ha]
      exact foldNumbers_conserve g _ st hnd

/-- After its own pass, every group of the agreement has at most one stored
row: an enumerated number was collapsed, a non-enumerated number had no
rows to begin with. -/
theorem cleanupAgreement_collapsed (st : List InvoiceRow × Nat)
    (a : AgreementRec) (g : Int) (ha : a.agreement_number = some g)
    (hnd : (st.1.map InvoiceRow.id).Nodup) :
    ∀ n : Int, ((cleanupAgreement st a).1.filter (invKey g n)).length ≤ 1 := by
  intro n
  simp only [cleanupAgreement, ha]
  by_cases hn : n ∈ ((st.1.filter
      (fun r => r.agreement_number == some g)).filterMap
        InvoiceRow.invoice_number).dedup
  · exact foldNumbers_collapsed g _ st hnd n hn
  · have hemp : st.1.filter (invKey g n) = [] := by
      apply List.filter_eq_nil_iff.mpr
      intro r hr hkey
      apply hn
      apply List.mem_dedup.mpr
      apply List.mem_filterMap.mpr
      refine ⟨r, ?_, ?_⟩
      · apply List.mem_filter.mpr
        refine ⟨hr, ?_⟩
        simp only [invKey, Bool.and_eq_true] at hkey
        exact hkey.2
      · simp only [invKey, Bool.and_eq_true, beq_iff_eq] at hkey
        exact hkey.1
    have hmono := filter_length_mono (invKey g n)
      (foldNumbers_sublist g ((st.1.filter
        (fun r => r.agreement_number == some g)).filterMap
          InvoiceRow.invoice_number).dedup st)
    rw [hemp] at hmono
    simp only [List.length_nil] at hmono
    omega

/-- The cross-agreement fold never adds rows. -/
theorem cleanupFold_sublist (l : List AgreementRec) :
    ∀ st : List InvoiceRow × Nat,
      List.Sublist ((l.foldl cleanupAgreement st)).1 st.1 := by
  induction l with
  | nil => intro st; exact List.Sublist.refl _
  | cons b l' ih =>
      intro st
      exact (ih (cleanupAgreement st b)).trans (cleanupAgreement_sublist st b)

/-- Conservation through the cross-agreement fold: every deleted row is
counted exactly once. -/
theorem cleanupFold_conserve (l : List AgreementRec) :
    ∀ st : List InvoiceRow × Nat, (st.1.map InvoiceRow.id).Nodup →
      ((l.foldl cleanupAgreement st)).1.length +
        ((l.foldl cleanupAgreement st)).2 = st.1.length + st.2 := by
  induction l with
  | nil => intro st _; rfl
  | cons b l' ih =>
      intro st hnd
      have hstep := cleanupAgreement_conserve st b hnd
      have hnd' := nodup_of_sublist_table (cleanupAgreement_sublist st b) hnd
      rw [List.foldl_cons, ih (cleanupAgreement st b) hnd']
      omega

/-- After the full cleanup, every group of every listed agreement has at
most one stored row. -/
theorem cleanupFold_collapsed (l : List AgreementRec) :
    ∀ st : List InvoiceRow × Nat, (st.1.map InvoiceRow.id).Nodup →
      ∀ a ∈ l, ∀ (g n : Int), a.agreement_number = some g →
        (((l.foldl cleanupAgreement st)).1.filter (invKey g n)).length ≤ 1 := by
  induction l with
  | nil => intro st _ a ha; exact absurd ha (List.not_mem_nil a)
  | cons b l' ih =>
      intro st hnd a hal g n hag
      rw [List.foldl_cons]
      have hnd' := nodup_of_sublist_table (cleanupAgreement_sublist st b) hnd
      rcases List.mem_cons.mp hal with rfl | hmem
      · have h1 := cleanupAgreement_collapsed st a g hag hnd n
        have h2 := filter_length_mono (invKey g n)
          (cleanupFold_sublist l' (cleanupAgreement st a))
        omega
      · exact ih (cleanupAgreement st b) hnd' a hmem g n hag

/-- A per-agreement pass over already-collapsed groups is the identity. -/
theorem cleanupAgreement_noop (st : List InvoiceRow × Nat) (a : AgreementRec)
    (h : ∀ (g n : Int), a.agreement_number = some g →
      (st.1.filter (invKey g n)).length ≤ 1) :
    cleanupAgreement st a = st := by
  cases ha : a.agreement_number with
  | none => simp only [cleanupAgreement, ha]
  | some g =>
      simp only [cleanupAgreement, ha]
      have hall : ∀ ns : List Int,
          ns.foldl (fun acc n => cleanupNumber g n acc) st = st := by
        intro ns
        induction ns with
        | nil => rfl
        | cons m ms ih2 =>
            rw [List.foldl_cons, cleanupNumber_noop g m st (h g m ha), ih2]
      exact hall _

/-- A full cleanup run over already-collapsed groups deletes nothing. -/
theorem cleanupFold_noop (l : List AgreementRec) :
    ∀ (db : List InvoiceRow) (c : Nat),
      (∀ a ∈ l, ∀ (g n : Int), a.agreement_number = some g →
        (db.filter (invKey g n)).length ≤ 1) →
      l.foldl cleanupAgreement (db, c) = (db, c) := by
  induction l with
  | nil => intro db c _; rfl
  | cons b l' ih =>
      intro db c h
      rw [List.foldl_cons,
        cleanupAgreement_noop (db, c) b
          (fun g n hg => h b (List.mem_cons_self b l') g n hg),
        ih db c (fun a ha g n hg => h a (List.mem_cons_of_mem b ha) g n hg)]

/-- The state of one `(agreement, invoice-number)` group relative to the
original table: either still exactly the original group, or collapsed to a
single row of the original group with the greatest `updated_at`. -/
def GroupOutcome (db0 db : List InvoiceRow) (g n : Int) : Prop :=
  db.filter (invKey g n) = db0.filter (invKey g n) ∨
  ∃ m, db.filter (invKey g n) = [m] ∧ m ∈ db0.filter (invKey g n) ∧
    ∀ r ∈ db0.filter (invKey g n), r.updated_at ≤ m.updated_at

/-- One step preserves the group outcome. -/
theorem cleanupNumber_outcome (g' n' g n : Int) (db0 : List InvoiceRow)
    (st : List InvoiceRow × Nat) (hnd : (st.1.map InvoiceRow.id).Nodup)
    (hout : GroupOutcome db0 st.1 g n) :
    GroupOutcome db0 (cleanupNumber g' n' st).1 g n := by
  by_cases hk : g = g' ∧ n = n'
  · obtain ⟨rfl, rfl⟩ := hk
    by_cases hle : (st.1.filter (invKey g n)).length ≤ 1
    · rw [cleanupNumber_noop _ _ _ hle]
      exact hout
    · obtain ⟨m, hm1, hm2, hm3⟩ :=
        cleanupNumber_collapse g n st hnd (by omega)
      rcases hout with heq | ⟨m0, hm0, _, _⟩
      · right
        rw [heq] at hm2 hm3
        exact ⟨m, hm1, hm2, hm3⟩
      · exfalso
        apply hle
        rw [hm0]
        exact le_refl 1
  · have hother := cleanupNumber_other g' n' g n st hnd hk
    rcases hout with heq | ⟨m, h1, h2, h3⟩
    · left
      rw [hother, heq]
    · right
      exact ⟨m, by rw [hother, h1], h2, h3⟩

/-- A per-agreement number pass preserves the group outcome. -/
theorem foldNumbers_outcome (g' : Int) (nums : List Int) (g n : Int)
    (db0 : List InvoiceRow) :
    ∀ st : List InvoiceRow × Nat, (st.1.map InvoiceRow.id).Nodup →
      GroupOutcome db0 st.1 g n →
      GroupOutcome db0
        ((nums.foldl (fun acc m => cleanupNumber g' m acc) st)).1 g n := by
  induction nums with
  | nil => intro st _ hout; exact hout
  | cons m ms ih =>
      intro st hnd hout
      rw [List.foldl_cons]
      exact ih _ (nodup_of_sublist_table (cleanupNumber_sublist g' m st) hnd)
        (cleanupNumber_outcome g' m g n db0 st hnd hout)

/-- A per-agreement pass preserves the group outcome. -/
theorem cleanupAgreement_outcome (a : AgreementRec) (g n : Int)
    (db0 : List InvoiceRow) (st : List InvoiceRow × Nat)
    (hnd : (st.1.map InvoiceRow.id).Nodup)
    (hout : GroupOutcome db0 st.1 g n) :
    GroupOutcome db0 (cleanupAgreement st a).1 g n := by
  cases ha : a.agreement_number with
  | none =>
      simp only [cleanupAgreement, ha]
      exact hout
  | some g' =>
      simp only [cleanupAgreement, ha]
      exact foldNumbers_outcome g' _ g n db0 st hnd hout

/-- The cross-agreement fold preserves the group outcome. -/
theorem cleanupFold_outcome (l : List AgreementRec) (g n : Int)
    (db0 : List InvoiceRow) :
    ∀ st : List InvoiceRow × Nat, (st.1.map InvoiceRow.id).Nodup →
      GroupOutcome db0 st.1 g n →
      GroupOutcome db0 ((l.foldl cleanupAgreement st)).1 g n := by
  induction l with
  | nil => intro st _ hout; exact hout
  | cons b l' ih =>
      intro st hnd hout
      rw [List.foldl_cons]
      exact ih _ (nodup_of_sublist_table (cleanupAgreement_sublist st b) hnd)
        (cleanupAgreement_outcome b g n db0 st hnd hout)

/-- C6: cleanup retention and idempotence.  The reported count is exactly
the number of deleted rows; for any active agreement's invoice number with
three stored rows of pairwise-distinct `updated_at`, exactly two are
removed and the surviving row is the strictly most-recently-updated one;
and a second consecutive run deletes zero rows. -/
theorem cleanup_retention_idempotent (agreements : List AgreementRec)
    (db : List InvoiceRow) (hnd : (db.map InvoiceRow.id).Nodup) :
    ((cleanupDuplicateInvoices agreements db).2 +
      (cleanupDuplicateInvoices agreements db).1.length = db.length) ∧
    (∀ a ∈ agreements, ∀ (g n : Int), a.agreement_number = some g →
      (db.filter (invKey g n)).length = 3 →
      (db.filter (invKey g n)).Pairwise
        (fun r s => r.updated_at ≠ s.updated_at) →
      ∃ m,
        (cleanupDuplicateInvoices agreements db).1.filter (invKey g n) =
          [m] ∧
        m ∈ db.filter (invKey g n) ∧
        ((cleanupDuplicateInvoices agreements db).1.filter
          (invKey g n)).length = 1 ∧
        ∀ r ∈ db.filter (invKey g n), r ≠ m →
          r.updated_at < m.updated_at) ∧
    ((cleanupDuplicateInvoices agreements
        ((cleanupDuplicateInvoices agreements db).1)).2 = 0) := by
  refine ⟨?_, ?_, ?_⟩
  · have h := cleanupFold_conserve agreements (db, 0) hnd
    simp only [cleanupDuplicateInvoices]
    simp at h
    omega
  · intro a ha g n hag hlen3 hpw
    have hout : GroupOutcome db
        (cleanupDuplicateInvoices agreements db).1 g n :=
      cleanupFold_outcome agreements g n db (db, 0) hnd (Or.inl rfl)
    have hcoll := cleanupFold_collapsed agreements (db, 0) hnd a ha g n hag
    rcases hout with heq | ⟨m, h1, h2, h3⟩
    · exfalso
      have : ((cleanupDuplicateInvoices agreements db).1.filter
          (invKey g n)).length ≤ 1 := hcoll
      rw [heq, hlen3] at this
      omega
    · refine ⟨m, h1, h2, by rw [h1]; rfl, ?_⟩
      intro r hr hrm
      have hle := h3 r hr
      have hne : r.updated_at ≠ m.updated_at :=
        List.Pairwise.forall (fun _ _ h => Ne.symm h) hpw hr h2 hrm
      exact lt_of_le_of_ne hle hne
  · have hcoll2 : ∀ a ∈ agreements, ∀ (g n : Int),
        a.agreement_number = some g →
        (((cleanupDuplicateInvoices agreements db).1).filter
          (invKey g n)).length ≤ 1 :=
      fun a ha g n hag =>
        cleanupFold_collapsed agreements (db, 0) hnd a ha g n hag
    have hnoop := cleanupFold_noop agreements
      (cleanupDuplicateInvoices agreements db).1 0 hcoll2
    show (agreements.foldl cleanupAgreement
      ((cleanupDuplicateInvoices agreements db).1, 0)).2 = 0
    rw [hnoop]

/-- The witness agreement for C6. -/
def exCleanAg : AgreementRec := ⟨1, "A", some 7⟩

/-- Three duplicate invoice rows sharing key `(10, 7)` with distinct
update times. -/
def exDup1 : InvoiceRow := ⟨1, some 10, none, none, some 7, .pending, 5⟩

/-- Second duplicate (the most recently updated one). -/
def exDup2 : InvoiceRow := ⟨2, some 10, none, none, some 7, .pending, 9⟩

/-- Third duplicate. -/
def exDup3 : InvoiceRow := ⟨3, some 10, none, none, some 7, .pending, 1⟩

/-- C6 witness: a three-row duplicate group collapses to its newest row,
the count matches the deletions, and a second run removes nothing. -/
theorem cleanup_retention_idempotent_witness :
    (([exDup1, exDup2, exDup3].map InvoiceRow.id).Nodup) ∧
    (((cleanupDuplicateInvoices [exCleanAg] [exDup1, exDup2, exDup3]).2 +
      (cleanupDuplicateInvoices [exCleanAg]
        [exDup1, exDup2, exDup3]).1.length = 3) ∧
    (∀ a ∈ [exCleanAg], ∀ (g n : Int), a.agreement_number = some g →
      (([exDup1, exDup2, exDup3].filter (invKey g n)).length = 3) →
      ([exDup1, exDup2, exDup3].filter (invKey g n)).Pairwise
        (fun r s => r.updated_at ≠ s.updated_at) →
      ∃ m,
        (cleanupDuplicateInvoices [exCleanAg]
          [exDup1, exDup2, exDup3]).1.filter (invKey g n) = [m] ∧
        m ∈ [exDup1, exDup2, exDup3].filter (invKey g n) ∧
        ((cleanupDuplicateInvoices [exCleanAg]
          [exDup1, exDup2, exDup3]).1.filter (invKey g n)).length = 1 ∧
        ∀ r ∈ [exDup1, exDup2, exDup3].filter (invKey g n), r ≠ m →
          r.updated_at < m.updated_at) ∧
    ((cleanupDuplicateInvoices [exCleanAg]
        ((cleanupDuplicateInvoices [exCleanAg]
          [exDup1, exDup2, exDup3]).1)).2 = 0)) :=
  ⟨by decide,
    cleanup_retention_idempotent [exCleanAg] [exDup1, exDup2, exDup3]
      (by decide)⟩

end Econ
